import Mathlib

/-!
Shallow embedding of `uu/idset.go` (package `uu` of domonda-go-types).

The repository source under verification is `src/uu/idset.go`, which defines
`type IDSet map[ID]struct{}` together with constructors, set algebra, and
text / JSON / SQL adapters.  The collaborator types `ID`, `IDSlice` and the
helper `strutil.TrimSpace` are not part of the provided sources; they are
modelled from the spec where needed (each such definition carries a
`Modelled from the spec:` doc comment).

Modelling choices:
* Go strings are embedded as `List Char`.
* A Go `IDSet` value (a possibly-nil map) is `Option (Finset ID)`:
  `none` is the nil map (the null set), `some m` a non-nil map with key set `m`.
* Functions returning `(T, error)` in Go are embedded as pairs
  `T × Option ParseError`, so the value returned alongside an error
  (e.g. the nil partial set) stays observable.
-/

set_option maxRecDepth 4096

/-- Modelled from the spec: `uu.ID` is an opaque identifier type that is
comparable, totally orderable, has a canonical string form and a
distinguished nil value (`IDNil`).  We model it as `Nat`. -/
abbrev ID := Nat

/-- Modelled from the spec: the distinguished nil identifier. -/
def IDNil : ID := 0

/-- Modelled from the spec: parse errors carry the offending input token. -/
structure ParseError where
  input : List Char
deriving DecidableEq, Repr

/-- Embedding of the Go type `IDSet map[ID]struct{}`: `none` is the nil map
(SQL NULL / JSON null), `some m` is a non-nil map whose key set is `m`. -/
abbrev IDSet := Option (Finset ID)

/-- The key set of the underlying map; ranging over a nil map visits nothing,
so the nil map has the empty key set. -/
def IDSet.elems : IDSet → Finset ID
  | none => ∅
  | some m => m

/-- Embeds `IDSet.Len`: `len(s)` of a Go map (0 for the nil map). -/
def IDSet.Len (s : IDSet) : Nat := (IDSet.elems s).card

/-- Embeds `IDSet.IsEmpty`: `return len(s) == 0`. -/
def IDSet.IsEmpty (s : IDSet) : Bool := IDSet.Len s == 0

/-- Embeds `IDSet.IsNull`: `return s == nil`. -/
def IDSet.IsNull : IDSet → Bool
  | none => true
  | some _ => false

/-- Embeds `IDSet.Contains`:
`if s == nil { return false }; _, ok := s[id]; return ok`. -/
def IDSet.Contains (s : IDSet) (id : ID) : Bool :=
  match s with
  | none => false
  | some m => decide (id ∈ m)

/-- Embeds `IDSet.Clone`: `if s == nil { return nil }; return maps.Clone(s)`.
`maps.Clone` copies the map contents, so as a value the clone is unchanged;
the aliasing consequences of the copy are modelled separately by the heap
operations `heapClone`/`heapAdd` below. -/
def IDSet.Clone : IDSet → IDSet
  | none => none
  | some m => some m

/-- Embeds `IDSet.Diff`: builds a fresh non-nil map `diff`, adds every id of
`s` not contained in `other`, then every id of `other` not contained in `s`. -/
def IDSet.Diff (s other : IDSet) : IDSet :=
  some (Finset.filter (fun id => IDSet.Contains other id = false) (IDSet.elems s)
        ∪ Finset.filter (fun id => IDSet.Contains s id = false) (IDSet.elems other))

/-- Embeds `IDSet.Equal`: `if len(s) != len(other) { return false }` followed by
a loop checking `other.Contains(id)` for every `id` ranged over in `s`. -/
def IDSet.Equal (s other : IDSet) : Bool :=
  IDSet.Len s == IDSet.Len other
    && decide (∀ id ∈ IDSet.elems s, IDSet.Contains other id = true)

/-- Embeds `IDSet.AsSortedSlice`: `s.AsSlice()` (the keys in undefined order)
followed by `sl.Sort()`; the result is the keys sorted by the identifier
order. -/
def IDSet.AsSortedSlice (s : IDSet) : List ID :=
  Finset.sort (· ≤ ·) (IDSet.elems s)

/-- Heap of allocated Go maps: index `i` holds the key set of map number `i`.
Used to model the reference semantics of `maps.Clone` and in-place `Add`. -/
abbrev MapHeap := List (Finset ID)

/-- Models `maps.Clone` on the heap: allocates a fresh map at the end of the
heap holding a copy of the contents of map `i`, and returns the new heap
together with the reference to the fresh map. -/
def heapClone (heap : MapHeap) (i : Nat) : MapHeap × Nat :=
  (heap ++ [heap.getD i ∅], heap.length)

/-- Models `IDSet.Add` (`s[id] = struct{}{}`) through a map reference:
mutates map `i` in place by inserting `id`. -/
def heapAdd (heap : MapHeap) (i : Nat) (id : ID) : MapHeap :=
  heap.set i (insert id (heap.getD i ∅))

/-! ### Helper lemmas about the set model -/

theorem IDSet.Contains_iff_mem (s : IDSet) (id : ID) :
    IDSet.Contains s id = true ↔ id ∈ IDSet.elems s := by
  cases s with
  | none => simp [IDSet.Contains, IDSet.elems]
  | some m => simp [IDSet.Contains, IDSet.elems]

theorem IDSet.Contains_false_iff (s : IDSet) (id : ID) :
    IDSet.Contains s id = false ↔ id ∉ IDSet.elems s := by
  rw [← Bool.not_eq_true, not_iff_not]
  exact IDSet.Contains_iff_mem s id

theorem IDSet.Equal_of_elems_eq {s other : IDSet}
    (h : IDSet.elems s = IDSet.elems other) : IDSet.Equal s other = true := by
  simp only [IDSet.Equal, IDSet.Len, h, Bool.and_eq_true, beq_iff_eq,
    decide_eq_true_eq]
  exact ⟨trivial, fun id hid => (IDSet.Contains_iff_mem other id).mpr hid⟩

theorem IDSet.elems_eq_of_Equal {s other : IDSet}
    (h : IDSet.Equal s other = true) : IDSet.elems s = IDSet.elems other := by
  simp only [IDSet.Equal, Bool.and_eq_true, beq_iff_eq, decide_eq_true_eq,
    IDSet.Len] at h
  obtain ⟨hcard, hsub⟩ := h
  have hsubset : IDSet.elems s ⊆ IDSet.elems other := fun id hid =>
    (IDSet.Contains_iff_mem _ id).mp (hsub id hid)
  exact Finset.eq_of_subset_of_card_le hsubset (le_of_eq hcard.symm)

/-! ### Strings: identifiers, joining, splitting, trimming -/

/-- Modelled from the spec: the canonical character of a decimal digit. -/
def digitChar (d : Nat) : Char := Char.ofNat (48 + d)

/-- Modelled from the spec: recognizes a decimal digit character. -/
def isDigitCh (c : Char) : Bool := 48 ≤ c.toNat && c.toNat ≤ 57

/-- Modelled from the spec: numeric value of a digit character. -/
def charVal (c : Char) : Nat := c.toNat - 48

/-- Modelled from the spec: `ID.String()`, the canonical string form of an
identifier (a nonempty string of digit characters, most significant first);
the identifier module guarantees a string round-trip with `IDFromString`. -/
def idToChars (n : ID) : List Char :=
  if n = 0 then [digitChar 0]
  else ((Nat.digits 10 n).map digitChar).reverse

/-- Modelled from the spec: `uu.IDFromString`, the collaborator parser for a
single identifier; fails with a `ParseError` naming the offending input on
anything that is not a canonical identifier string. -/
def IDFromString (cs : List Char) : Except ParseError ID :=
  if cs ≠ [] ∧ cs.all isDigitCh then
    .ok (Nat.ofDigits 10 ((cs.map charVal).reverse))
  else .error ⟨cs⟩

/-- Modelled from the spec: `strings.Join(strs, ",")` as used by the
identifier-sequence collaborator when formatting. -/
def joinComma : List (List Char) → List Char
  | [] => []
  | [x] => x
  | x :: y :: xs => x ++ ',' :: joinComma (y :: xs)

/-- Embeds `strings.Split(str, ",")`: splits at every comma; `n` commas give
`n+1` (possibly empty) fields. -/
def splitOnComma : List Char → List (List Char)
  | [] => [[]]
  | c :: rest =>
    if c = ',' then [] :: splitOnComma rest
    else
      match splitOnComma rest with
      | [] => [[c]]
      | p :: ps => (c :: p) :: ps

/-- Modelled from the spec: whitespace recognized by `strutil.TrimSpace`. -/
def isSpaceChar (c : Char) : Bool :=
  c = ' ' || c = '\t' || c = '\n' || c = '\r'

/-- Modelled from the spec: `strutil.TrimSpace`, trimming surrounding
whitespace from a token. -/
def trimSpace (s : List Char) : List Char :=
  ((s.dropWhile isSpaceChar).reverse.dropWhile isSpaceChar).reverse

/-! ### Construction from strings and the canonical text form -/

/-- Loop of `MakeIDSetFromStrings`: starts from the accumulated (non-nil) map
and adds each parsed id; on the first parse error returns `(nil, err)`,
dropping the partial map. -/
def makeIDSetLoop (acc : Finset ID) : List (List Char) → IDSet × Option ParseError
  | [] => (some acc, Option.none)
  | str :: rest =>
    match IDFromString str with
    | .error e => (none, some e)
    | .ok id => makeIDSetLoop (insert id acc) rest

/-- Embeds `MakeIDSetFromStrings`: `s := make(IDSet)` then the parse-and-add
loop; returns `(nil, err)` on the first invalid string. -/
def MakeIDSetFromStrings (strs : List (List Char)) : IDSet × Option ParseError :=
  makeIDSetLoop ∅ strs

/-- The tail of `IDSetFromString` shared by both branches: the empty remainder
maps to `(nil, nil)`; otherwise split on commas, trim each token and feed the
tokens to `MakeIDSetFromStrings`. -/
def parseIDListStr (s : List Char) : IDSet × Option ParseError :=
  if s = [] then (none, Option.none)
  else MakeIDSetFromStrings ((splitOnComma s).map trimSpace)

/-- The literal token `set`. -/
def setTok : List Char := ['s', 'e', 't']

/-- Embeds `str = strings.TrimPrefix(str, "set")`: drop a leading `set`. -/
def stripSetTok (str : List Char) : List Char :=
  if setTok.isPrefixOf str then str.drop 3 else str

/-- Embeds `IDSetFromString`: strip an optional leading `set`; if the
remainder is wrapped in `[...]` strip the brackets, else return the null set
on the literals `null`/`NULL`; an empty remainder is the null set; otherwise
split on commas, trim and parse each token. -/
def IDSetFromString (str : List Char) : IDSet × Option ParseError :=
  if (['[']).isPrefixOf (stripSetTok str) && ([']']).isSuffixOf (stripSetTok str) then
    parseIDListStr (((stripSetTok str).drop 1).dropLast)
  else if stripSetTok str = ['n', 'u', 'l', 'l'] ∨ stripSetTok str = ['N', 'U', 'L', 'L'] then
    (none, Option.none)
  else parseIDListStr (stripSetTok str)

/-- Modelled from the spec: `IDSlice.String()`, the bracketed comma-separated
join of the identifiers' string forms. -/
def IDSlice.String (l : List ID) : List Char :=
  '[' :: (joinComma (l.map idToChars) ++ [']'])

/-- Embeds `IDSet.String`: `"set" + s.AsSortedSlice().String()`. -/
def IDSet.String (s : IDSet) : List Char :=
  's' :: 'e' :: 't' :: IDSlice.String (IDSet.AsSortedSlice s)

/-! ### Lemmas about the identifier string form -/

theorem charVal_digitChar {d : Nat} (h : d < 10) : charVal (digitChar d) = d := by
  interval_cases d <;> decide

theorem isDigitCh_digitChar {d : Nat} (h : d < 10) : isDigitCh (digitChar d) = true := by
  interval_cases d <;> decide

theorem ne_comma_of_digitCh {c : Char} (h : isDigitCh c = true) : c ≠ ',' := by
  intro hc
  subst hc
  exact absurd h (by decide)

theorem isSpaceChar_eq_false_of_digitCh {c : Char} (h : isDigitCh c = true) :
    isSpaceChar c = false := by
  cases hs : isSpaceChar c
  · rfl
  · exfalso
    simp only [isSpaceChar, Bool.or_eq_true, decide_eq_true_eq] at hs
    rcases hs with ((h1 | h1) | h1) | h1 <;> subst h1 <;> exact absurd h (by decide)

theorem idToChars_ne_nil (n : ID) : idToChars n ≠ [] := by
  unfold idToChars
  split
  · simp
  · rename_i h
    intro hnil
    rw [List.reverse_eq_nil_iff] at hnil
    exact absurd (List.map_eq_nil_iff.mp hnil) (Nat.digits_ne_nil_iff_ne_zero.mpr h)

theorem idToChars_all_digits (n : ID) : ∀ c ∈ idToChars n, isDigitCh c = true := by
  intro c hc
  unfold idToChars at hc
  split at hc
  · rw [List.mem_singleton] at hc
    subst hc
    decide
  · rw [List.mem_reverse] at hc
    obtain ⟨d, hd, rfl⟩ := List.mem_map.mp hc
    exact isDigitCh_digitChar (Nat.digits_lt_base (by norm_num) hd)

theorem ofDigits_charVal_idToChars (n : ID) :
    Nat.ofDigits 10 (((idToChars n).map charVal).reverse) = n := by
  by_cases h : n = 0
  · subst h
    decide
  · unfold idToChars
    rw [if_neg h, List.map_reverse, List.reverse_reverse, List.map_map]
    have hcongr : (Nat.digits 10 n).map (charVal ∘ digitChar) = Nat.digits 10 n := by
      have : ∀ d ∈ Nat.digits 10 n, (charVal ∘ digitChar) d = id d := fun d hd =>
        charVal_digitChar (Nat.digits_lt_base (by norm_num) hd)
      rw [List.map_congr_left this, List.map_id]
    rw [hcongr, Nat.ofDigits_digits]

theorem IDFromString_idToChars (n : ID) : IDFromString (idToChars n) = Except.ok n := by
  unfold IDFromString
  rw [if_pos ⟨idToChars_ne_nil n,
        List.all_eq_true.mpr (fun c hc => idToChars_all_digits n c hc)⟩]
  rw [ofDigits_charVal_idToChars]

/-! ### Lemmas about split, join and trim -/

theorem splitOnComma_no_comma {s : List Char} (h : ',' ∉ s) : splitOnComma s = [s] := by
  induction s with
  | nil => rfl
  | cons c rest ih =>
    have hc : ¬ c = ',' := fun e => h (e ▸ List.mem_cons_self c rest)
    have hr : ',' ∉ rest := fun m => h (List.mem_cons_of_mem c m)
    simp [splitOnComma, hc, ih hr]

theorem splitOnComma_append {x : List Char} (t : List Char) (h : ',' ∉ x) :
    splitOnComma (x ++ ',' :: t) = x :: splitOnComma t := by
  induction x with
  | nil => simp [splitOnComma]
  | cons c rest ih =>
    have hc : ¬ c = ',' := fun e => h (e ▸ List.mem_cons_self c rest)
    have hr : ',' ∉ rest := fun m => h (List.mem_cons_of_mem c m)
    simp [splitOnComma, hc, ih hr]

theorem splitOnComma_joinComma {xs : List (List Char)} (hne : xs ≠ [])
    (h : ∀ x ∈ xs, ',' ∉ x) : splitOnComma (joinComma xs) = xs := by
  induction xs with
  | nil => exact absurd rfl hne
  | cons x rest ih =>
    cases rest with
    | nil => exact splitOnComma_no_comma (h x (List.mem_cons_self x []))
    | cons y ys =>
      have hjoin : joinComma (x :: y :: ys) = x ++ ',' :: joinComma (y :: ys) := rfl
      rw [hjoin, splitOnComma_append _ (h x (List.mem_cons_self x (y :: ys))),
        ih (by simp) (fun z hz => h z (List.mem_cons_of_mem x hz))]

theorem joinComma_cons_ne_nil {x : List Char} {xs : List (List Char)} (hx : x ≠ []) :
    joinComma (x :: xs) ≠ [] := by
  cases xs with
  | nil => exact hx
  | cons y ys => simp [joinComma]

theorem dropWhile_eq_self_of_none {p : Char → Bool} {l : List Char}
    (h : ∀ c ∈ l, p c = false) : l.dropWhile p = l := by
  cases l with
  | nil => rfl
  | cons c rest => simp [List.dropWhile, h c (List.mem_cons_self c rest)]

theorem trimSpace_eq_self {s : List Char} (h : ∀ c ∈ s, isSpaceChar c = false) :
    trimSpace s = s := by
  unfold trimSpace
  rw [dropWhile_eq_self_of_none h,
    dropWhile_eq_self_of_none (fun c hc => h c (List.mem_reverse.mp hc)),
    List.reverse_reverse]

theorem trimSpace_idToChars (n : ID) : trimSpace (idToChars n) = idToChars n :=
  trimSpace_eq_self fun c hc => isSpaceChar_eq_false_of_digitCh (idToChars_all_digits n c hc)

theorem map_trimSpace_map_idToChars (l : List ID) :
    (l.map idToChars).map trimSpace = l.map idToChars := by
  rw [List.map_map]
  exact List.map_congr_left fun n _ => trimSpace_idToChars n

/-! ### Lemmas about construction from strings -/

theorem makeIDSetLoop_map_idToChars (l : List ID) (acc : Finset ID) :
    makeIDSetLoop acc (l.map idToChars) = (some (acc ∪ l.toFinset), Option.none) := by
  induction l generalizing acc with
  | nil => simp [makeIDSetLoop]
  | cons x rest ih =>
    simp only [List.map_cons, makeIDSetLoop, IDFromString_idToChars x, ih]
    have : insert x acc ∪ rest.toFinset = acc ∪ (x :: rest).toFinset := by
      rw [List.toFinset_cons, Finset.insert_union, Finset.union_insert]
    rw [this]

theorem MakeIDSetFromStrings_map_idToChars (l : List ID) :
    MakeIDSetFromStrings (l.map idToChars) = (some l.toFinset, Option.none) := by
  rw [MakeIDSetFromStrings, makeIDSetLoop_map_idToChars, Finset.empty_union]

/-! ### The canonical text round-trip -/

theorem idToChars_no_comma (n : ID) : ',' ∉ idToChars n := fun hm =>
  ne_comma_of_digitCh (idToChars_all_digits n ',' hm) rfl

theorem stripSetTok_set_cons (X : List Char) : stripSetTok ('s' :: 'e' :: 't' :: X) = X := by
  unfold stripSetTok
  have h : setTok.isPrefixOf ('s' :: 'e' :: 't' :: X) = true :=
    List.isPrefixOf_iff_prefix.mpr ⟨X, rfl⟩
  rw [if_pos h]
  rfl

theorem IDSetFromString_bracket (inner : List Char) :
    IDSetFromString ('s' :: 'e' :: 't' :: '[' :: (inner ++ [']'])) = parseIDListStr inner := by
  unfold IDSetFromString
  rw [stripSetTok_set_cons]
  have hpre : (['['] : List Char).isPrefixOf ('[' :: (inner ++ [']'])) = true :=
    List.isPrefixOf_iff_prefix.mpr ⟨inner ++ [']'], rfl⟩
  have hsuf : ([']'] : List Char).isSuffixOf ('[' :: (inner ++ [']'])) = true :=
    List.isSuffixOf_iff_suffix.mpr ⟨'[' :: inner, rfl⟩
  have hcond : ((['['] : List Char).isPrefixOf ('[' :: (inner ++ [']']))
      && ([']'] : List Char).isSuffixOf ('[' :: (inner ++ [']']))) = true := by
    rw [hpre, hsuf]
    rfl
  rw [if_pos hcond]
  show parseIDListStr ((inner ++ [']']).dropLast) = parseIDListStr inner
  rw [List.dropLast_concat]

theorem IDSet.String_eq (s : IDSet) :
    IDSet.String s
      = 's' :: 'e' :: 't' :: '[' :: (joinComma ((IDSet.AsSortedSlice s).map idToChars) ++ [']']) :=
  rfl

theorem IDSet.toFinset_AsSortedSlice (s : IDSet) :
    (IDSet.AsSortedSlice s).toFinset = IDSet.elems s :=
  Finset.sort_toFinset _ _

theorem IDSetFromString_String (s : IDSet) :
    (IDSetFromString (IDSet.String s)).2 = Option.none ∧
    IDSet.elems (IDSetFromString (IDSet.String s)).1 = IDSet.elems s := by
  rw [IDSet.String_eq, IDSetFromString_bracket]
  rcases hl : IDSet.AsSortedSlice s with _ | ⟨x, xs⟩
  · have hempty : IDSet.elems s = ∅ := by
      rw [← IDSet.toFinset_AsSortedSlice s, hl]
      rfl
    rw [hempty]
    constructor
    · rfl
    · rfl
  · have hinner : joinComma (((x :: xs) : List ID).map idToChars) ≠ [] := by
      rw [List.map_cons]
      exact joinComma_cons_ne_nil (idToChars_ne_nil x)
    unfold parseIDListStr
    rw [if_neg hinner,
      splitOnComma_joinComma (by simp)
        (fun z hz => by
          obtain ⟨n, _, rfl⟩ := List.mem_map.mp hz
          exact idToChars_no_comma n),
      map_trimSpace_map_idToChars, MakeIDSetFromStrings_map_idToChars]
    refine ⟨rfl, ?_⟩
    show ((x :: xs) : List ID).toFinset = IDSet.elems s
    rw [← hl]
    exact IDSet.toFinset_AsSortedSlice s

/-! ### Structured-document (JSON) and database adapters -/

/-- JSON values occurring in the adapter: the literal `null` token or an
array whose elements are identifier documents (each the identifier's own
encoding, a string of characters). -/
inductive JVal where
  | jnull : JVal
  | jarr (items : List (List Char)) : JVal
deriving DecidableEq, Repr

/-- Modelled from the spec: `IDSlice.MarshalJSON`, the sorted array of each
identifier's own structured-document encoding. -/
def IDSlice.MarshalJSON (l : List ID) : JVal := JVal.jarr (l.map idToChars)

/-- Decodes the elements of an identifier array one by one, stopping at the
first element that fails to decode. -/
def parseIDDocs : List (List Char) → Except ParseError (List ID)
  | [] => .ok []
  | s :: rest =>
    match IDFromString s with
    | .error e => .error e
    | .ok id =>
      match parseIDDocs rest with
      | .error e => .error e
      | .ok ids => .ok (id :: ids)

/-- Modelled from the spec: `IDSlice.UnmarshalJSON`; a JSON null leaves the
slice nil (the `encoding/json` convention), an array decodes elementwise. -/
def IDSlice.UnmarshalJSON : JVal → Except ParseError (List ID)
  | JVal.jnull => .ok []
  | JVal.jarr items => parseIDDocs items

/-- Modelled from the spec: `IDSlice.AsSet`, deduplicating a sequence into
a (non-nil) set. -/
def IDSlice.AsSet (l : List ID) : Finset ID := l.toFinset

/-- Embeds `IDSet.MarshalJSON`: `if s == nil { return []byte("null") }`,
otherwise the sorted slice's JSON encoding. -/
def IDSet.MarshalJSON (s : IDSet) : JVal :=
  match s with
  | none => JVal.jnull
  | some _ => IDSlice.MarshalJSON (IDSet.AsSortedSlice s)

/-- Embeds `IDSet.UnmarshalJSON` as a function of the pre-existing target
`old` (the value of `*s` before the call): the null token sets the target to
nil; otherwise the data decodes as a slice which replaces the target
wholesale; on a decode error the target keeps its old value. -/
def IDSet.UnmarshalJSON (old : IDSet) (data : JVal) : IDSet × Option ParseError :=
  if data = JVal.jnull then (none, Option.none)
  else
    match IDSlice.UnmarshalJSON data with
    | .error e => (old, some e)
    | .ok ids => (some (IDSlice.AsSet ids), Option.none)

/-- Modelled from the spec: the database driver value for a non-NULL column,
a driver-compatible representation of a sequence of identifiers. -/
abbrev DbValue := List ID

/-- Modelled from the spec: `IDSlice.Value`, the driver representation of the
sequence. -/
def IDSlice.Value (l : List ID) : DbValue := l

/-- Embeds `IDSet.Value`: `if s == nil { return nil, nil }`, otherwise the
sorted slice's driver value; `Option.none` is SQL NULL. -/
def IDSet.Value (s : IDSet) : Option DbValue :=
  match s with
  | none => none
  | some _ => some (IDSlice.Value (IDSet.AsSortedSlice s))

/-- Embeds `IDSet.Scan` as a function of the pre-existing target `old`:
`if value == nil { *s = nil }`, otherwise the value scans as a slice
(delegated to the collaborator, modelled as already-decoded identifiers)
which is deduplicated into a fresh set replacing the target wholesale. -/
def IDSet.Scan (_old : IDSet) (value : Option DbValue) : IDSet × Option ParseError :=
  match value with
  | none => (none, Option.none)
  | some l => (some (IDSlice.AsSet l), Option.none)

/-! ### ForEach -/

/-- Embeds the loop of `IDSet.ForEach` over the iteration order `l` of the
map (Go map iteration order is unspecified), instrumented with the list of
ids the callback was invoked on: stops at the first non-nil callback result
and returns it, otherwise returns nil after visiting every element. -/
def forEachTrace {E : Type} : List ID → (ID → Option E) → Option E × List ID
  | [], _ => (Option.none, [])
  | id :: rest, cb =>
    match cb id with
    | some e => (some e, [id])
    | Option.none =>
      let r := forEachTrace rest cb
      (r.1, id :: r.2)

/-- Embeds `IDSet.ForEach`: the result propagated to the caller when the
callback is invoked in iteration order `l`. -/
def IDSet.ForEach {E : Type} (l : List ID) (cb : ID → Option E) : Option E :=
  (forEachTrace l cb).1

/-! ### Helper lemmas for the adapters, construction and iteration -/

theorem parseIDDocs_map_idToChars (l : List ID) :
    parseIDDocs (l.map idToChars) = Except.ok l := by
  induction l with
  | nil => rfl
  | cons x rest ih => simp [parseIDDocs, IDFromString_idToChars, ih]

theorem mem_Diff_elems (A B : IDSet) (id : ID) :
    id ∈ IDSet.elems (IDSet.Diff A B) ↔
      (id ∈ IDSet.elems A ∧ id ∉ IDSet.elems B)
        ∨ (id ∈ IDSet.elems B ∧ id ∉ IDSet.elems A) := by
  show id ∈ (Finset.filter (fun id => IDSet.Contains B id = false) (IDSet.elems A)
      ∪ Finset.filter (fun id => IDSet.Contains A id = false) (IDSet.elems B)) ↔ _
  rw [Finset.mem_union, Finset.mem_filter, Finset.mem_filter]
  rw [IDSet.Contains_false_iff, IDSet.Contains_false_iff]

theorem makeIDSetLoop_ok (strs : List (List Char)) (acc : Finset ID)
    (h : ∀ s ∈ strs, ∃ id, IDFromString s = Except.ok id) :
    ∃ m : Finset ID, makeIDSetLoop acc strs = (some m, Option.none) ∧
      ∀ id : ID, id ∈ m ↔ id ∈ acc ∨ ∃ s ∈ strs, IDFromString s = Except.ok id := by
  induction strs generalizing acc with
  | nil => exact ⟨acc, rfl, fun id => by simp⟩
  | cons x rest ih =>
    obtain ⟨idx, hx⟩ := h x (List.mem_cons_self x rest)
    obtain ⟨m, hm, hmem⟩ := ih (insert idx acc)
      (fun s hs => h s (List.mem_cons_of_mem x hs))
    refine ⟨m, by simp [makeIDSetLoop, hx, hm], fun id => ?_⟩
    rw [hmem id]
    constructor
    · rintro (hins | ⟨s, hs, hok⟩)
      · rcases Finset.mem_insert.mp hins with rfl | hacc
        · exact Or.inr ⟨x, List.mem_cons_self x rest, hx⟩
        · exact Or.inl hacc
      · exact Or.inr ⟨s, List.mem_cons_of_mem x hs, hok⟩
    · rintro (hacc | ⟨s, hs, hok⟩)
      · exact Or.inl (Finset.mem_insert_of_mem hacc)
      · rcases List.mem_cons.mp hs with rfl | hs2
        · have : idx = id := Except.ok.inj (hx.symm.trans hok)
          exact Or.inl (Finset.mem_insert.mpr (Or.inl this.symm))
        · exact Or.inr ⟨s, hs2, hok⟩

theorem makeIDSetLoop_error (l1 : List (List Char)) (bad : List Char)
    (l2 : List (List Char)) (e : ParseError) (acc : Finset ID)
    (h1 : ∀ x ∈ l1, ∃ id, IDFromString x = Except.ok id)
    (hbad : IDFromString bad = Except.error e) :
    makeIDSetLoop acc (l1 ++ bad :: l2) = (Option.none, some e) := by
  induction l1 generalizing acc with
  | nil => simp [makeIDSetLoop, hbad]
  | cons x rest ih =>
    obtain ⟨idx, hx⟩ := h1 x (List.mem_cons_self x rest)
    simp only [List.cons_append, makeIDSetLoop, hx]
    exact ih (insert idx acc) (fun y hy => h1 y (List.mem_cons_of_mem x hy))

theorem forEachTrace_all_none {E : Type} (l : List ID) (cb : ID → Option E)
    (h : ∀ x ∈ l, cb x = Option.none) : forEachTrace l cb = (Option.none, l) := by
  induction l with
  | nil => rfl
  | cons x rest ih =>
    simp [forEachTrace, h x (List.mem_cons_self x rest),
      ih (fun y hy => h y (List.mem_cons_of_mem x hy))]

theorem forEachTrace_stops {E : Type} (l1 : List ID) (i : ID) (l2 : List ID)
    (e : E) (cb : ID → Option E) (h1 : ∀ x ∈ l1, cb x = Option.none)
    (hi : cb i = some e) :
    forEachTrace (l1 ++ i :: l2) cb = (some e, l1 ++ [i]) := by
  induction l1 with
  | nil => simp [forEachTrace, hi]
  | cons x rest ih =>
    simp [forEachTrace, h1 x (List.mem_cons_self x rest),
      ih (fun y hy => h1 y (List.mem_cons_of_mem x hy))]

theorem getD_append_self (l : MapHeap) (x : Finset ID) :
    (l ++ [x]).getD l.length ∅ = x := by
  induction l with
  | nil => rfl
  | cons a as ih => simp [ih]

theorem getD_set_ne (l : MapHeap) (j i : Nat) (x : Finset ID) (h : j ≠ i) :
    (l.set j x).getD i ∅ = l.getD i ∅ := by
  simp [List.getElem?_set_ne h]

theorem getD_append_left (l : MapHeap) (x : Finset ID) (i : Nat)
    (h : i < l.length) : (l ++ [x]).getD i ∅ = l.getD i ∅ := by
  simp [List.getElem?_append_left h]

/-! ### Claim theorems -/

/-- C1 (counterexample): the claim states that parsing the canonical text
`set[]` yields a set with `IsNull() == false`; evaluating `IDSetFromString`
on `set[]` shows `IsNull()` is in fact `true` (the empty bracket interior
takes the `str == ""` branch and returns the nil set), so the claimed
`IsNull() == false` is false. -/
theorem IDSetFromString_setEmpty_not_nonNull :
    ((IDSet.IsNull (IDSetFromString ['s','e','t','[',']']).1) == false) = false := by
  decide

/-- C1 (amended): parsing the canonical text form `set[]` with
`IDSetFromString` succeeds and yields the null, empty set: the result
satisfies `IsNull() == true` and `IsEmpty() == true`. -/
theorem IDSetFromString_setEmpty_null_empty :
    IDSet.IsNull (IDSetFromString ['s','e','t','[',']']).1 = true ∧
    IDSet.IsEmpty (IDSetFromString ['s','e','t','[',']']).1 = true ∧
    (IDSetFromString ['s','e','t','[',']']).2 = Option.none := by
  decide

/-- C3: `Diff(A, B)` is the symmetric difference: an identifier is contained
in the result iff it is contained in exactly one of `A` and `B`; consequently
`Diff(A, B)` is `Equal` to `Diff(B, A)` and `Diff(A, A)` is empty. -/
theorem IDSet_Diff_symmDiff (A B : IDSet) :
    (∀ id : ID, IDSet.Contains (IDSet.Diff A B) id
        = xor (IDSet.Contains A id) (IDSet.Contains B id)) ∧
    IDSet.Equal (IDSet.Diff A B) (IDSet.Diff B A) = true ∧
    IDSet.IsEmpty (IDSet.Diff A A) = true := by
  refine ⟨?_, ?_, ?_⟩
  · intro id
    cases hA : IDSet.Contains A id <;> cases hB : IDSet.Contains B id
    · have hnot : id ∉ IDSet.elems (IDSet.Diff A B) := by
        rw [mem_Diff_elems]
        rintro (⟨h1, _⟩ | ⟨h1, _⟩)
        · exact (IDSet.Contains_false_iff A id).mp hA h1
        · exact (IDSet.Contains_false_iff B id).mp hB h1
      simp [(IDSet.Contains_false_iff _ id).mpr hnot]
    · have hmem : id ∈ IDSet.elems (IDSet.Diff A B) := by
        rw [mem_Diff_elems]
        exact Or.inr ⟨(IDSet.Contains_iff_mem B id).mp hB,
          (IDSet.Contains_false_iff A id).mp hA⟩
      simp [(IDSet.Contains_iff_mem _ id).mpr hmem]
    · have hmem : id ∈ IDSet.elems (IDSet.Diff A B) := by
        rw [mem_Diff_elems]
        exact Or.inl ⟨(IDSet.Contains_iff_mem A id).mp hA,
          (IDSet.Contains_false_iff B id).mp hB⟩
      simp [(IDSet.Contains_iff_mem _ id).mpr hmem]
    · have hnot : id ∉ IDSet.elems (IDSet.Diff A B) := by
        rw [mem_Diff_elems]
        rintro (⟨_, h2⟩ | ⟨_, h2⟩)
        · exact h2 ((IDSet.Contains_iff_mem B id).mp hB)
        · exact h2 ((IDSet.Contains_iff_mem A id).mp hA)
      simp [(IDSet.Contains_false_iff _ id).mpr hnot]
  · apply IDSet.Equal_of_elems_eq
    ext id
    rw [mem_Diff_elems, mem_Diff_elems]
    tauto
  · have hempty : IDSet.elems (IDSet.Diff A A) = ∅ := by
      ext id
      rw [mem_Diff_elems]
      simp
    rw [IDSet.IsEmpty, IDSet.Len, hempty]
    rfl

/-- C4: a null (nil) set encodes to the null sentinel in both adapters
(`MarshalJSON` gives the JSON null token, `Value` gives SQL NULL), and
decoding the null sentinel (`UnmarshalJSON` of the null token, `Scan` of a
nil value) sets the target to the null set, overwriting any pre-populated
target wholesale — to null, not to empty. -/
theorem IDSet_null_sentinel_encoding :
    IDSet.MarshalJSON Option.none = JVal.jnull ∧
    IDSet.Value Option.none = Option.none ∧
    (∀ old : IDSet,
      IDSet.UnmarshalJSON old JVal.jnull = (Option.none, Option.none) ∧
      IDSet.IsNull (IDSet.UnmarshalJSON old JVal.jnull).1 = true ∧
      IDSet.Scan old Option.none = (Option.none, Option.none) ∧
      IDSet.IsNull (IDSet.Scan old Option.none).1 = true) := by
  refine ⟨rfl, rfl, fun old => ?_⟩
  have hj : IDSet.UnmarshalJSON old JVal.jnull = (Option.none, Option.none) := by
    unfold IDSet.UnmarshalJSON
    rw [if_pos rfl]
  exact ⟨hj, by rw [hj]; rfl, rfl, rfl⟩

/-- C8: calling `Contains` on a null (nil) set is safe for every identifier
and always returns false. -/
theorem IDSet_Contains_null_false (id : ID) :
    IDSet.Contains Option.none id = false := rfl

/-- C10: `Equal` does not distinguish a null set from an explicitly
constructed empty set: `Equal` is true in both directions between the nil
set and a non-nil empty set, although `IsNull` distinguishes the two. -/
theorem IDSet_Equal_null_empty :
    IDSet.Equal Option.none (some (∅ : Finset ID)) = true ∧
    IDSet.Equal (some (∅ : Finset ID)) Option.none = true ∧
    IDSet.IsNull (Option.none : IDSet) = true ∧
    IDSet.IsNull (some (∅ : Finset ID)) = false := by
  decide

/-- C2: for every IDSet `S` (null, empty or populated), parsing its
serialized form back yields a set that is set-equal to `S`:
`IDSetFromString(S.String())` succeeds and is `Equal` to `S`, and
`UnmarshalJSON` applied (over any pre-existing target) to the output of
`MarshalJSON` of `S` succeeds and yields a set `Equal` to `S`. -/
theorem IDSet_roundtrip_text_json (s : IDSet) :
    (IDSet.Equal (IDSetFromString (IDSet.String s)).1 s = true ∧
     (IDSetFromString (IDSet.String s)).2 = Option.none) ∧
    (∀ old : IDSet,
      IDSet.Equal (IDSet.UnmarshalJSON old (IDSet.MarshalJSON s)).1 s = true ∧
      (IDSet.UnmarshalJSON old (IDSet.MarshalJSON s)).2 = Option.none) := by
  obtain ⟨herr, helems⟩ := IDSetFromString_String s
  refine ⟨⟨IDSet.Equal_of_elems_eq helems, herr⟩, fun old => ?_⟩
  cases s with
  | none =>
    have h : IDSet.UnmarshalJSON old (IDSet.MarshalJSON Option.none)
        = (Option.none, Option.none) := by
      show IDSet.UnmarshalJSON old JVal.jnull = (Option.none, Option.none)
      unfold IDSet.UnmarshalJSON
      rw [if_pos rfl]
    rw [h]
    exact ⟨IDSet.Equal_of_elems_eq rfl, rfl⟩
  | some m =>
    have hdata : IDSet.MarshalJSON (some m)
        = JVal.jarr ((IDSet.AsSortedSlice (some m)).map idToChars) := rfl
    have h : IDSet.UnmarshalJSON old (IDSet.MarshalJSON (some m))
        = (some (IDSlice.AsSet (IDSet.AsSortedSlice (some m))), Option.none) := by
      unfold IDSet.UnmarshalJSON
      rw [hdata, if_neg (by simp)]
      show (match IDSlice.UnmarshalJSON
          (JVal.jarr ((IDSet.AsSortedSlice (some m)).map idToChars)) with
        | .error e => ((old : IDSet), some e)
        | .ok ids => (some (IDSlice.AsSet ids), Option.none)) = _
      rw [show IDSlice.UnmarshalJSON
          (JVal.jarr ((IDSet.AsSortedSlice (some m)).map idToChars))
          = parseIDDocs ((IDSet.AsSortedSlice (some m)).map idToChars) from rfl,
        parseIDDocs_map_idToChars]
    rw [h]
    refine ⟨IDSet.Equal_of_elems_eq ?_, rfl⟩
    show IDSlice.AsSet (IDSet.AsSortedSlice (some m)) = m
    exact IDSet.toFinset_AsSortedSlice (some m)

/-- C5: `MakeIDSetFromStrings` is atomic: if every string parses, the full
set of all parsed identifiers is returned with no error; if some string
fails to parse, the first invalid string's `ParseError` is returned together
with the nil set (no partial result). -/
theorem MakeIDSetFromStrings_atomic (strs : List (List Char)) :
    ((∀ str ∈ strs, ∃ id : ID, IDFromString str = Except.ok id) →
      ∃ m : Finset ID, MakeIDSetFromStrings strs = (some m, Option.none) ∧
        ∀ id : ID, id ∈ m ↔ ∃ str ∈ strs, IDFromString str = Except.ok id) ∧
    (∀ (l1 : List (List Char)) (bad : List Char) (l2 : List (List Char))
        (e : ParseError),
      strs = l1 ++ bad :: l2 →
      (∀ x ∈ l1, ∃ id : ID, IDFromString x = Except.ok id) →
      IDFromString bad = Except.error e →
      MakeIDSetFromStrings strs = (Option.none, some e)) := by
  constructor
  · intro h
    obtain ⟨m, hm, hmem⟩ := makeIDSetLoop_ok strs ∅ h
    exact ⟨m, hm, fun id => by rw [hmem id]; simp⟩
  · intro l1 bad l2 e hsplit h1 hbad
    rw [MakeIDSetFromStrings, hsplit]
    exact makeIDSetLoop_error l1 bad l2 e ∅ h1 hbad

/-- C5 witness: at the concrete input `["1", "x"]` the first string parses
and the second does not, so the constructor returns the nil set together
with the `ParseError` naming `"x"`. -/
theorem MakeIDSetFromStrings_atomic_witness :
    MakeIDSetFromStrings [['1'], ['x']] = (Option.none, some ⟨['x']⟩) :=
  (MakeIDSetFromStrings_atomic [['1'], ['x']]).2 [['1']] ['x'] [] ⟨['x']⟩ rfl
    (fun x hx => by
      rw [List.mem_singleton] at hx
      subst hx
      exact ⟨1, by rfl⟩)
    (by rfl)

/-- C6: serialization is deterministic with respect to insertion history:
any two non-null IDSets that are `Equal` produce byte-identical output in
the text, JSON and database encodings, because each output is derived from
the sorted projection `AsSortedSlice`. -/
theorem IDSet_serialization_deterministic (s1 s2 : IDSet)
    (h1 : IDSet.IsNull s1 = false) (h2 : IDSet.IsNull s2 = false)
    (heq : IDSet.Equal s1 s2 = true) :
    IDSet.String s1 = IDSet.String s2 ∧
    IDSet.MarshalJSON s1 = IDSet.MarshalJSON s2 ∧
    IDSet.Value s1 = IDSet.Value s2 := by
  have he := IDSet.elems_eq_of_Equal heq
  have hs : IDSet.AsSortedSlice s1 = IDSet.AsSortedSlice s2 := by
    rw [IDSet.AsSortedSlice, IDSet.AsSortedSlice, he]
  cases s1 with
  | none => exact absurd h1 (by decide)
  | some m1 =>
    cases s2 with
    | none => exact absurd h2 (by decide)
    | some m2 =>
      refine ⟨?_, ?_, ?_⟩
      · rw [IDSet.String_eq, IDSet.String_eq, hs]
      · show IDSlice.MarshalJSON (IDSet.AsSortedSlice (some m1))
            = IDSlice.MarshalJSON (IDSet.AsSortedSlice (some m2))
        rw [hs]
      · show some (IDSlice.Value (IDSet.AsSortedSlice (some m1)))
            = some (IDSlice.Value (IDSet.AsSortedSlice (some m2)))
        rw [hs]

/-- C6 witness: the concrete sets `{1, 2}` and `{2, 1}` (built in different
orders) are Equal and produce identical serialized output in all three
formats. -/
theorem IDSet_serialization_deterministic_witness :
    IDSet.String (some ({1, 2} : Finset ID)) = IDSet.String (some ({2, 1} : Finset ID)) ∧
    IDSet.MarshalJSON (some ({1, 2} : Finset ID)) = IDSet.MarshalJSON (some ({2, 1} : Finset ID)) ∧
    IDSet.Value (some ({1, 2} : Finset ID)) = IDSet.Value (some ({2, 1} : Finset ID)) :=
  IDSet_serialization_deterministic (some ({1, 2} : Finset ID))
    (some ({2, 1} : Finset ID)) rfl rfl (by decide)

/-- C7: when `ForEach` runs over an iteration order `l` of the elements of a
set `s` (map iteration order is unspecified, so `l` is any duplicate-free
enumeration of the elements): if every callback invocation returns nil, the
callback is invoked exactly once per element of the set and `ForEach`
returns nil; if the callback first returns a non-nil result at some element,
iteration stops immediately — exactly the elements before it and itself were
visited, no later element is visited — and exactly that result is returned. -/
theorem IDSet_ForEach_spec {E : Type} (s : IDSet) (l : List ID)
    (cb : ID → Option E) (hnd : l.Nodup) (hset : l.toFinset = IDSet.elems s) :
    ((∀ x ∈ l, cb x = Option.none) →
      IDSet.ForEach l cb = Option.none ∧ (forEachTrace l cb).2 = l ∧
      (forEachTrace l cb).2.length = IDSet.Len s) ∧
    (∀ (l1 : List ID) (i : ID) (l2 : List ID) (e : E),
      l = l1 ++ i :: l2 → (∀ x ∈ l1, cb x = Option.none) → cb i = some e →
      IDSet.ForEach l cb = some e ∧ (forEachTrace l cb).2 = l1 ++ [i]) := by
  constructor
  · intro h
    have ht := forEachTrace_all_none l cb h
    refine ⟨by rw [IDSet.ForEach, ht], by rw [ht], ?_⟩
    rw [ht]
    show l.length = IDSet.Len s
    rw [IDSet.Len, ← hset, List.toFinset_card_of_nodup hnd]
  · intro l1 i l2 e hl h1 hi
    subst hl
    have ht := forEachTrace_stops l1 i l2 e cb h1 hi
    exact ⟨by rw [IDSet.ForEach, ht], by rw [ht]⟩

/-- C7 witness: over the set `{1, 2}` iterated as `[1, 2]`, a callback that
signals a sentinel at element 2 stops the iteration there with exactly the
sentinel returned and both elements visited. -/
theorem IDSet_ForEach_spec_witness :
    IDSet.ForEach [1, 2] (fun x => if x = 2 then some 0 else Option.none)
      = some 0 ∧
    (forEachTrace [1, 2] (fun x => if x = 2 then some 0 else Option.none)).2
      = [1] ++ [2] :=
  (IDSet_ForEach_spec (some ({1, 2} : Finset ID)) [1, 2]
      (fun x => if x = 2 then some 0 else Option.none)
      (by decide) (by decide)).2 [1] 2 [] 0 rfl (by decide) (by decide)

/-- C9: `Clone` preserves null-ness — the clone of the nil set is nil, not
empty — and the clone of any set is `Equal` to it; moreover, on the map
heap, cloning map `i` allocates a fresh map with the same contents, and a
subsequent `Add` through the clone reference leaves the original map
unchanged, while an `Add` through the original reference leaves the clone
unchanged. -/
theorem IDSet_Clone_spec (heap : MapHeap) (i : Nat) (id : ID)
    (hlt : i < heap.length) :
    (IDSet.Clone Option.none = Option.none ∧
     IDSet.IsNull (IDSet.Clone Option.none) = true ∧
     (∀ s : IDSet, IDSet.Equal (IDSet.Clone s) s = true)) ∧
    ((heapClone heap i).1.getD (heapClone heap i).2 ∅ = heap.getD i ∅ ∧
     (heapAdd (heapClone heap i).1 (heapClone heap i).2 id).getD i ∅
       = heap.getD i ∅ ∧
     (heapAdd (heapClone heap i).1 i id).getD (heapClone heap i).2 ∅
       = heap.getD i ∅) := by
  have hne : (heapClone heap i).2 ≠ i := Nat.ne_of_gt hlt
  have hcopy : (heapClone heap i).1.getD (heapClone heap i).2 ∅ = heap.getD i ∅ :=
    getD_append_self heap (heap.getD i ∅)
  refine ⟨⟨rfl, rfl, fun s => IDSet.Equal_of_elems_eq (by cases s <;> rfl)⟩,
    hcopy, ?_, ?_⟩
  · rw [heapAdd, getD_set_ne _ _ _ _ hne]
    exact getD_append_left heap (heap.getD i ∅) i hlt
  · rw [heapAdd, getD_set_ne _ _ _ _ (Ne.symm hne)]
    exact hcopy

/-- C9 witness: on a heap holding the single map `{5}`, cloning it and
adding 7 through the clone reference leaves the original map `{5}`
unchanged. -/
theorem IDSet_Clone_spec_witness :
    (heapAdd (heapClone [({5} : Finset ID)] 0).1
        (heapClone [({5} : Finset ID)] 0).2 7).getD 0 ∅ = ({5} : Finset ID) :=
  ((IDSet_Clone_spec [({5} : Finset ID)] 0 7 (by decide)).2).2.1
